import Mathlib

set_option maxRecDepth 16000

/-!
A shallow embedding of the binary serialization codec in `src/lib.rs`:
the `Value` model with its `PartialEq`/`Hash` implementations, the
encoder `encode_to` and the decoder `decode_from`, together with proofs
settling the specification claims about them.

Modelling conventions:
* Bytes are `Nat` (always < 256 when produced by the code).
* `i128` is modelled as `Int`; casts such as `i as u8` or
  `(i as u16).to_be_bytes()` are modelled with explicit `Int.emod` by the
  matching power of two.
* `f64` is modelled by its IEEE-754 bit pattern (a `Nat` < 2^64); the raw
  `==` on `f64` used by `PartialEq for Value` is `f64Eq` on bit patterns.
* The byte sink of `encode_to` is modelled as the returned byte list: with
  an infallible sink the Rust function always returns `Ok(())`, so the
  embedding is total.
* The byte source of `decode_from` is a `List Nat` plus the returned rest.
  In Rust, `Read::read` on a slice copies at most the available bytes,
  returns `Ok(n)` and never fails; the source code ignores the returned
  count and keeps the zero-initialized remainder of the buffer, which is
  modelled by `takeN` (take and zero-pad).
* `HashMap<Value, Value>` is modelled as an association list holding the
  contents of the map in iteration order.  Lookup and insertion locate an entry
  by hash first and then by `eq`, modelled as: same fed hash-token stream
  (`hashTokens`) and `eq` true, which is HashMap behaviour under an ideal
  (stream-injective) hasher.
-/

/-- Big-endian byte list of width `w` for `n` (low `8*w` bits of `n`),
modelling `to_be_bytes` on a `w`-byte integer. -/
def beBytes : Nat → Nat → List Nat
  | 0, _ => []
  | w + 1, n => (n / 256 ^ w % 256) :: beBytes w n

/-- Big-endian value of a byte list, modelling `from_be_bytes`. -/
def beVal (bs : List Nat) : Nat :=
  bs.foldl (fun a b => a * 256 + b) 0

/-- Reinterpret an unsigned `w`-bit value as a signed one (two-complement
wrap), modelling casts such as `v as i8` and `i16::from_be_bytes`. -/
def toSigned (w : Nat) (n : Nat) : Int :=
  if n < 2 ^ (w - 1) then (n : Int) else (n : Int) - 2 ^ w

/-- Model of filling a `n`-byte zero-initialized buffer with
`r.read(&mut buf)` from a slice-backed reader and ignoring the returned
count, as the source code does: the first `n` available bytes are copied
and the rest of the buffer keeps its zeros.  Returns the buffer contents
and the remaining input. -/
def takeN (n : Nat) (bs : List Nat) : List Nat × List Nat :=
  (bs.take n ++ List.replicate (n - bs.length) 0, bs.drop n)

/-- UTF-8 continuation byte (`0x80`–`0xBF`). -/
def isCont (b : Nat) : Bool :=
  decide (0x80 ≤ b ∧ b ≤ 0xbf)

/-- UTF-8 validity of a byte list, modelling `String::from_utf8`
(which fails exactly on invalid UTF-8). -/
def isValidUtf8 : List Nat → Bool
  | [] => true
  | b :: r =>
    if b ≤ 0x7f then isValidUtf8 r
    else if b < 0xc2 then false
    else if b ≤ 0xdf then
      match r with
      | b1 :: r1 => isCont b1 && isValidUtf8 r1
      | [] => false
    else if b ≤ 0xef then
      match r with
      | b1 :: b2 :: r2 =>
        (if b = 0xe0 then decide (0xa0 ≤ b1 ∧ b1 ≤ 0xbf)
         else if b = 0xed then decide (0x80 ≤ b1 ∧ b1 ≤ 0x9f)
         else isCont b1) && isCont b2 && isValidUtf8 r2
      | _ => false
    else if b ≤ 0xf4 then
      match r with
      | b1 :: b2 :: b3 :: r3 =>
        (if b = 0xf0 then decide (0x90 ≤ b1 ∧ b1 ≤ 0xbf)
         else if b = 0xf4 then decide (0x80 ≤ b1 ∧ b1 ≤ 0x8f)
         else isCont b1) && isCont b2 && isCont b3 && isValidUtf8 r3
      | _ => false
    else false

/-- Whether a 64-bit pattern is an IEEE-754 NaN (exponent all ones,
non-zero mantissa). -/
def isNaNBits (b : Nat) : Bool :=
  (b / 2 ^ 52 % 2 ^ 11 == 0x7ff) && (b % 2 ^ 52 != 0)

/-- Whether a 64-bit pattern is an IEEE-754 zero (`+0.0` or `-0.0`). -/
def isZeroBits (b : Nat) : Bool :=
  b % 2 ^ 63 == 0

/-- IEEE-754 `==` on two `f64` bit patterns, as used by the `Float` arm of
`PartialEq for Value`: NaN compares unequal to everything (itself
included), `+0.0 == -0.0`, and otherwise equal bit patterns. -/
def f64Eq (a b : Nat) : Bool :=
  if isNaNBits a || isNaNBits b then false
  else if isZeroBits a && isZeroBits b then true
  else a == b

/-- Widening of an `f32` bit pattern to an `f64` bit pattern, modelling
`f32 as f64` in the `0xCA` decode arm (value-exact for non-NaN inputs;
for NaN the payload is kept shifted, matching the usual behaviour). -/
def f32ToF64Bits (b : Nat) : Nat :=
  let sign := b / 2 ^ 31 % 2
  let exp := b / 2 ^ 23 % 2 ^ 8
  let frac := b % 2 ^ 23
  if exp = 255 then sign * 2 ^ 63 + 0x7ff * 2 ^ 52 + frac * 2 ^ 29
  else if exp = 0 then
    if frac = 0 then sign * 2 ^ 63
    else
      let k := Nat.log2 frac
      sign * 2 ^ 63 + (k + 874) * 2 ^ 52 + (frac - 2 ^ k) * 2 ^ (52 - k)
  else sign * 2 ^ 63 + (exp + 896) * 2 ^ 52 + frac * 2 ^ 29

/-- The `Value` model of `src/lib.rs`:

* `integer` holds the `i128` payload as an `Int`;
* `float` holds the `f64` payload as its 64-bit pattern;
* `str` holds the UTF-8 bytes of the `String` payload;
* `map` holds the `HashMap<Value, Value>` contents as an association list
  in the iteration order of the map. -/
inductive Value where
  | null
  | boolean (b : Bool)
  | integer (i : Int)
  | float (bits : Nat)
  | str (s : List Nat)
  | bytes (b : List Nat)
  | array (a : List Value)
  | map (m : List (Value × Value))

/-- One primitive write fed to a `Hasher`, tagged with the width/shape the
source code uses, so that two `Value`s feed the same data to the hasher
iff their token streams are equal. -/
inductive HTok where
  | i32 (n : Int)
  | u8 (n : Nat)
  | i128 (n : Int)
  | u64 (n : Nat)
  | lenPfx (n : Nat)
  | raw (bs : List Nat)
deriving DecidableEq

mutual
/-- The stream of primitive values that `impl Hash for Value` feeds to the
hasher: `Null` hashes the `i32` literal `0`, `Float` hashes `f.to_bits()`,
`String` hashes its bytes plus a `0xff` terminator, `Bytes`/`Array` hash a
length prefix then their elements, and `Map` hashes the key and
value of each entry in iteration order with no length prefix and no commutative
combiner. -/
def hashTokens : Value → List HTok
  | .null => [.i32 0]
  | .boolean b => [.u8 (if b then 1 else 0)]
  | .integer i => [.i128 i]
  | .float bits => [.u64 bits]
  | .str s => [.raw s, .u8 0xff]
  | .bytes b => [.lenPfx b.length, .raw b]
  | .array a => .lenPfx a.length :: hashTokensList a
  | .map m => hashTokensPairs m

/-- Hash-token stream of a list of values, element by element. -/
def hashTokensList : List Value → List HTok
  | [] => []
  | v :: vs => hashTokens v ++ hashTokensList vs

/-- Hash-token stream of the entries of a map in iteration order. -/
def hashTokensPairs : List (Value × Value) → List HTok
  | [] => []
  | (k, v) :: ps => hashTokens k ++ hashTokens v ++ hashTokensPairs ps
end

mutual
/-- `PartialEq for Value`: identical variants with equal payloads;
`Float` compares payloads with raw `f64` equality (`f64Eq`); `Map`
compares lengths and then looks every entry of the left map up in the
right one. -/
def eqValue : Value → Value → Bool
  | .null, t => match t with | .null => true | _ => false
  | .boolean b, t => match t with | .boolean b2 => b == b2 | _ => false
  | .integer i, t => match t with | .integer i2 => i == i2 | _ => false
  | .float f, t => match t with | .float f2 => f64Eq f f2 | _ => false
  | .str s, t => match t with | .str s2 => s == s2 | _ => false
  | .bytes b, t => match t with | .bytes b2 => b == b2 | _ => false
  | .array a, t => match t with | .array a2 => eqList a a2 | _ => false
  | .map m, t =>
    match t with
    | .map m2 => if m.length == m2.length then eqEntries m m2 else false
    | _ => false
termination_by a _ => (sizeOf a, 0)

/-- `Vec<Value> ==`: equal lengths and pointwise equal elements. -/
def eqList : List Value → List Value → Bool
  | [], [] => true
  | v :: vs, v2 :: vs2 => eqValue v v2 && eqList vs vs2
  | _, _ => false
termination_by l _ => (sizeOf l, 1)

/-- The map-equality loop of `PartialEq for Value`: every `(k, v)` of the
left map must be found in the right map (`hmGet`) with an equal value. -/
def eqEntries : List (Value × Value) → List (Value × Value) → Bool
  | [], _ => true
  | (k, v) :: ps, m2 =>
    (match hmGet m2 k with
     | some v2 => eqValue v v2
     | none => false) && eqEntries ps m2
termination_by ps _ => (sizeOf ps, 1)

/-- `HashMap::get` on the association-list model: find the first entry
whose stored key has the hash of the query (same fed token stream under an
ideal hasher) and compares equal to the query. -/
def hmGet : List (Value × Value) → Value → Option Value
  | [], _ => none
  | (k2, v2) :: ps, k =>
    if hashTokens k == hashTokens k2 && eqValue k k2 then some v2
    else hmGet ps k
termination_by l k => (sizeOf k, 1 + sizeOf l)
end

/-- `HashMap::insert` on the association-list model: if an entry with the
same hash as the new key (same token stream) and an `eq`-equal key exists, its value
is updated and the stored key kept (Rust documents that the key is not
updated); otherwise the new entry is appended. -/
def hmInsert (m : List (Value × Value)) (k v : Value) : List (Value × Value) :=
  match m with
  | [] => [(k, v)]
  | (k2, v2) :: ps =>
    if hashTokens k == hashTokens k2 && eqValue k k2 then (k2, v) :: ps
    else (k2, v2) :: hmInsert ps k v

/-- Build a `HashMap` by inserting decoded `(key, value)` pairs in stream
order, as the map decode loops of `decode_from` do. -/
def mapFromPairs (ps : List (Value × Value)) : List (Value × Value) :=
  ps.foldl (fun m kv => hmInsert m kv.1 kv.2) []

mutual
/-- `true` iff the value contains no `Float` whose payload is NaN. -/
def nanFree : Value → Bool
  | .null => true
  | .boolean _ => true
  | .integer _ => true
  | .float bits => !isNaNBits bits
  | .str _ => true
  | .bytes _ => true
  | .array a => nanFreeList a
  | .map m => nanFreePairs m

/-- `nanFree` on every element of a list. -/
def nanFreeList : List Value → Bool
  | [] => true
  | v :: vs => nanFree v && nanFreeList vs

/-- `nanFree` on every key and value of the entries of a map. -/
def nanFreePairs : List (Value × Value) → Bool
  | [] => true
  | (k, v) :: ps => nanFree k && nanFree v && nanFreePairs ps
end

/-- Two keys clash when they have the same hash (token stream) and compare
equal in either direction; a `HashMap` never holds two such keys. -/
def keyClash (k1 k2 : Value) : Bool :=
  hashTokens k1 == hashTokens k2 && (eqValue k1 k2 || eqValue k2 k1)

/-- No two entries of the association list have clashing keys. -/
def keysDistinct : List (Value × Value) → Bool
  | [] => true
  | (k, _) :: ps => ps.all (fun kv => !keyClash k kv.1) && keysDistinct ps

mutual
/-- Representation invariant of the embedding: every `map` inside the
value holds pairwise non-clashing keys, as a Rust `HashMap` built through
its safe API does. -/
def mapKeysWF : Value → Bool
  | .null => true
  | .boolean _ => true
  | .integer _ => true
  | .float _ => true
  | .str _ => true
  | .bytes _ => true
  | .array a => wfList a
  | .map m => keysDistinct m && wfPairs m

/-- `mapKeysWF` on every element of a list. -/
def wfList : List Value → Bool
  | [] => true
  | v :: vs => mapKeysWF v && wfList vs

/-- `mapKeysWF` on every key and value of the entries of a map. -/
def wfPairs : List (Value × Value) → Bool
  | [] => true
  | (k, v) :: ps => mapKeysWF k && mapKeysWF v && wfPairs ps
end

mutual
/-- The encoder `encode_to` of `src/lib.rs`, with the byte sink modelled
as the returned byte list.  With an infallible sink the Rust function
always returns `Ok(())` — it contains no other failure path (in
particular no out-of-range check: the final `Integer` branch casts the
full `i128` with `to_be_bytes`, emitting a 16-byte payload after `0xD3`).
The `Map` branch walks the map in iteration order, i.e. list order. -/
def encode_to : Value → List Nat
  | .null => [0xc0]
  | .boolean b => [if b then 0xc3 else 0xc2]
  | .integer i =>
    if 0 ≤ i ∧ i ≤ 0x7f then [(i.emod 256).toNat]
    else if -32 ≤ i ∧ i ≤ -1 then [(i.emod 256).toNat]
    else if -128 ≤ i ∧ i ≤ 127 then [0xd0, (i.emod 256).toNat]
    else if -32768 ≤ i ∧ i ≤ 32767 then 0xd1 :: beBytes 2 (i.emod (2 ^ 16)).toNat
    else if -2147483648 ≤ i ∧ i ≤ 2147483647 then 0xd2 :: beBytes 4 (i.emod (2 ^ 32)).toNat
    else 0xd3 :: beBytes 16 (i.emod (2 ^ 128)).toNat
  | .float bits => 0xcb :: beBytes 8 bits
  | .str s =>
    let len := s.length
    if len ≤ 31 then (0xa0 + len) :: s
    else if len ≤ 255 then 0xd9 :: len :: s
    else if len ≤ 65535 then 0xd9 :: (beBytes 2 (len % 2 ^ 16) ++ s)
    else 0xd9 :: (beBytes 4 (len % 2 ^ 32) ++ s)
  | .bytes b =>
    let len := b.length
    if len ≤ 255 then 0xc4 :: len :: b
    else if len ≤ 65535 then 0xc5 :: (beBytes 2 (len % 2 ^ 16) ++ b)
    else 0xc6 :: (beBytes 4 (len % 2 ^ 32) ++ b)
  | .array a =>
    let len := a.length
    if len ≤ 15 then (0x90 + len) :: encodeList a
    else if len ≤ 65535 then 0xdc :: (beBytes 2 (len % 2 ^ 16) ++ encodeList a)
    else 0xdd :: (beBytes 2 (len % 2 ^ 16) ++ encodeList a)
  | .map m =>
    let len := m.length
    if len ≤ 15 then (0x80 + len) :: encodePairs m
    else if len ≤ 65535 then 0xde :: (beBytes 2 (len % 2 ^ 16) ++ encodePairs m)
    else 0xdf :: (beBytes 4 (len % 2 ^ 32) ++ encodePairs m)

/-- The element loop of the `Array` branches: each element encoded
recursively in order. -/
def encodeList : List Value → List Nat
  | [] => []
  | v :: vs => encode_to v ++ encodeList vs

/-- The entry loop of the `Map` branches: each key then its value encoded
recursively, in iteration order. -/
def encodePairs : List (Value × Value) → List Nat
  | [] => []
  | (k, v) :: ps => encode_to k ++ encode_to v ++ encodePairs ps
end

example : encode_to (.integer 100) = [0x64] := by decide
example : encode_to (.integer (-5)) = [0xfb] := by decide
example : encode_to (.integer 300) = [0xd1, 0x01, 0x2c] := by decide
example : encode_to (.integer (-60)) = [0xd0, 0xc4] := by decide

/-- Failure outcomes of the decoder in `src/lib.rs`:

* `error` — `Err(Error::Error)` (the only error value the single crate-level
  `Error` enum can carry; produced by the `0xC1` arm and by failed UTF-8
  validation);
* `unimpl` — an `unimplemented!()` arm was reached, which panics at run
  time (`0xC7`–`0xC9`, `0xD4`–`0xD8`, `0xDD`, `0xDE`, `0xDF`);
* `illFormed` — the match reaches a place where the source is not even
  well-formed Rust: the `0xDC` arm has an empty block of type `()` where a
  `Result<Value>` is required, and the tags `0xE0`–`0xFF` have no match
  arm at all (the `match` is non-exhaustive). -/
inductive DFail where
  | error
  | unimpl
  | illFormed
deriving DecidableEq

/-- Outcome of one decode call: a failure or a decoded `Value`. -/
inductive DOut where
  | fail (e : DFail)
  | ok (v : Value)

mutual
/-- Fuel-indexed model of `decode_from` in `src/lib.rs`.  One unit of fuel
is spent per call, so any run whose call-tree depth is below the initial
fuel is reproduced exactly; `decode_from` below passes `32 * (length + 2)`
fuel, which exceeds the deepest possible call chain (every recursive
dispatch first consumes the tag byte, and the per-level element loops of
the fixed-size composite arms run at most 15 iterations, so the call
depth is below `17 * (length + 1)`).  The tag byte and every payload are
read with the zero-padding `takeN` (see its doc comment): on a truncated
input the code keeps the zero-initialized buffer and continues — in
particular an empty input yields tag `0x00` and decodes as `Integer(0)`. -/
def decodeF : Nat → List Nat → DOut × List Nat
  | 0, bs => (.fail .illFormed, bs)
  | fuel + 1, bs =>
    let b := (takeN 1 bs).1.headI
    let r0 := (takeN 1 bs).2
    if b ≤ 0x7f then (.ok (.integer b), r0)
    else if b ≤ 0x8f then
      match decodePairsF fuel (b - 0x80) r0 with
      | (.inl e, r) => (.fail e, r)
      | (.inr ps, r) => (.ok (.map (mapFromPairs ps)), r)
    else if b ≤ 0x9f then
      match decodeSeqF fuel (b - 0x90) r0 with
      | (.inl e, r) => (.fail e, r)
      | (.inr vs, r) => (.ok (.array vs), r)
    else if b ≤ 0xbf then
      let (v, r1) := takeN (b - 0xa0) r0
      if isValidUtf8 v then (.ok (.str v), r1) else (.fail .error, r1)
    else if b = 0xc0 then (.ok .null, r0)
    else if b = 0xc1 then (.fail .error, r0)
    else if b = 0xc2 then (.ok (.boolean false), r0)
    else if b = 0xc3 then (.ok (.boolean true), r0)
    else if b = 0xc4 then
      let (lb, r1) := takeN 1 r0
      let (v, r2) := takeN lb.headI r1
      (.ok (.bytes v), r2)
    else if b = 0xc5 then
      let (lb, r1) := takeN 2 r0
      let (v, r2) := takeN (beVal lb) r1
      (.ok (.bytes v), r2)
    else if b = 0xc6 then
      let (lb, r1) := takeN 4 r0
      let (v, r2) := takeN (beVal lb) r1
      (.ok (.bytes v), r2)
    else if b ≤ 0xc9 then (.fail .unimpl, r0)
    else if b = 0xca then
      let (p, r1) := takeN 4 r0
      (.ok (.float (f32ToF64Bits (beVal p))), r1)
    else if b = 0xcb then
      let (p, r1) := takeN 8 r0
      (.ok (.float (beVal p)), r1)
    else if b = 0xcc then
      let (p, r1) := takeN 1 r0
      (.ok (.integer (beVal p)), r1)
    else if b = 0xcd then
      let (p, r1) := takeN 2 r0
      (.ok (.integer (beVal p)), r1)
    else if b = 0xce then
      let (p, r1) := takeN 4 r0
      (.ok (.integer (beVal p)), r1)
    else if b = 0xcf then
      let (p, r1) := takeN 8 r0
      (.ok (.integer (beVal p)), r1)
    else if b = 0xd0 then
      let (p, r1) := takeN 1 r0
      (.ok (.integer (toSigned 8 (beVal p))), r1)
    else if b = 0xd1 then
      let (p, r1) := takeN 2 r0
      (.ok (.integer (toSigned 16 (beVal p))), r1)
    else if b = 0xd2 then
      let (p, r1) := takeN 4 r0
      (.ok (.integer (toSigned 32 (beVal p))), r1)
    else if b = 0xd3 then
      let (p, r1) := takeN 8 r0
      (.ok (.integer (toSigned 64 (beVal p))), r1)
    else if b ≤ 0xd8 then (.fail .unimpl, r0)
    else if b = 0xd9 then
      let (lb, r1) := takeN 1 r0
      let (v, r2) := takeN lb.headI r1
      if isValidUtf8 v then (.ok (.str v), r2) else (.fail .error, r2)
    else if b = 0xda then
      let (lb, r1) := takeN 2 r0
      let (v, r2) := takeN (beVal lb) r1
      if isValidUtf8 v then (.ok (.str v), r2) else (.fail .error, r2)
    else if b = 0xdb then
      let (lb, r1) := takeN 4 r0
      let (v, r2) := takeN (beVal lb) r1
      if isValidUtf8 v then (.ok (.str v), r2) else (.fail .error, r2)
    else if b = 0xdc then (.fail .illFormed, r0)
    else if b ≤ 0xdf then (.fail .unimpl, r0)
    else (.fail .illFormed, r0)

/-- The element loop of the fixed-size array arm: decode `n` values from
the stream, propagating the first failure (the `?` operator). -/
def decodeSeqF : Nat → Nat → List Nat → (DFail ⊕ List Value) × List Nat
  | 0, _, bs => (.inl .illFormed, bs)
  | _ + 1, 0, bs => (.inr [], bs)
  | fuel + 1, n + 1, bs =>
    match decodeF fuel bs with
    | (.fail e, r) => (.inl e, r)
    | (.ok v, r) =>
      match decodeSeqF fuel n r with
      | (.inl e, r2) => (.inl e, r2)
      | (.inr vs, r2) => (.inr (v :: vs), r2)

/-- The entry loop of the fixed-size map arm: decode `n` key/value pairs
in stream order, propagating the first failure. -/
def decodePairsF : Nat → Nat → List Nat → (DFail ⊕ List (Value × Value)) × List Nat
  | 0, _, bs => (.inl .illFormed, bs)
  | _ + 1, 0, bs => (.inr [], bs)
  | fuel + 1, n + 1, bs =>
    match decodeF fuel bs with
    | (.fail e, r) => (.inl e, r)
    | (.ok k, r) =>
      match decodeF fuel r with
      | (.fail e, r2) => (.inl e, r2)
      | (.ok v, r2) =>
        match decodePairsF fuel n r2 with
        | (.inl e, r3) => (.inl e, r3)
        | (.inr ps, r3) => (.inr ((k, v) :: ps), r3)
end

/-- The decoder `decode_from` of `src/lib.rs`: decode one value from the
byte list, returning the outcome and the unconsumed rest of the input.
The fuel argument of `decodeF` is an artifact of the embedding; the
budget passed here exceeds the call-tree depth of every run (see
`decodeF`), so it reproduces the recursion of the source exactly. -/
def decode_from (bs : List Nat) : DOut × List Nat :=
  decodeF (32 * (bs.length + 2)) bs

example : decode_from [0x64] = (.ok (.integer 100), []) := rfl
example : decode_from [0xc0] = (.ok .null, []) := rfl
example : decode_from [0x92, 0xc2, 0x05] =
    (.ok (.array [.boolean false, .integer 5]), []) := rfl
example : decode_from [] = (.ok (.integer 0), []) := rfl

/-- C1: the round-trip claim fails on the code.  `Integer(-5)` encodes as
the single negative-fixed byte `0xFB`, but the decode `match` has no
arm for the tags `0xE0`–`0xFF` (it is non-exhaustive), so decoding the
the own output of the encoder for `-5` cannot produce `Integer(-5)` — the decode
dispatch reaches ill-formed source instead. -/
theorem roundtrip_fails_on_neg_fixint :
    encode_to (.integer (-5)) = [0xfb] ∧
    decode_from (encode_to (.integer (-5))) = (.fail .illFormed, []) :=
  ⟨rfl, rfl⟩

/-- C2: the integer tag-family selection fails on the code for values
needing the `0xD3` family: `2147483648` (the first value past the 32-bit
range) is encoded as `0xD3` followed by the full 16-byte big-endian
`i128` payload — 17 bytes in all — not the claimed 64-bit (8-byte)
payload.  (The narrower families and the examples `100 → 0x64`,
`-5 → 0xFB`, `300 → 0xD1 0x01 0x2C` do match the claim.) -/
theorem integer_d3_payload_is_16_bytes :
    encode_to (.integer 2147483648) =
      [0xd3, 0, 0, 0, 0, 0, 0, 0, 0, 0, 0, 0, 0, 0x80, 0, 0, 0] ∧
    (encode_to (.integer 2147483648)).length = 17 :=
  ⟨by decide, by decide⟩

/-- C3: encoding an integer outside the signed 64-bit range does not fail.
The final `Integer` branch of `encode_to` has no range check (and the
`Error` enum of the crate has no `OutOfRange` variant at all): `2^64` is
happily written as `0xD3` plus its 16-byte `i128` payload. -/
theorem out_of_range_integer_encodes_successfully :
    encode_to (.integer (2 ^ 64)) =
      [0xd3, 0, 0, 0, 0, 0, 0, 0, 1, 0, 0, 0, 0, 0, 0, 0, 0] :=
  by decide

/-- C4: the string length-prefix claim fails on the code.  A 256-byte
string takes the 16-bit-length tier, but the code emits tag `0xD9` (the
8-bit-length tag, which its own decoder reads with a 1-byte length)
followed by a 2-byte length — the claimed `0xDA` is never emitted, so
the tag byte does not identify the chosen width.  (The 31/32-byte
boundary between the inline and 8-bit tiers does match the claim.) -/
theorem string_16bit_tier_reuses_d9_tag :
    encode_to (.str (List.replicate 256 0x61)) =
      0xd9 :: 0x01 :: 0x00 :: List.replicate 256 0x61 ∧
    encode_to (.str (List.replicate 31 0x61)) =
      0xbf :: List.replicate 31 0x61 ∧
    encode_to (.str (List.replicate 32 0x61)) =
      0xd9 :: 0x20 :: List.replicate 32 0x61 :=
  ⟨by decide, by decide, by decide⟩

/-- C6: the truncation claim fails on the code.  Decoding the single byte
`0xD1` (a tag declaring a 2-byte payload) does not fail: the short-read
count of `Read::read` is ignored, the zero-initialized buffer is kept, and the
call returns `Ok(Integer(0))` — exactly the zero-filled value the claim
says is never returned.  (The `Error` enum of the crate has no `Truncated`
variant.) -/
theorem truncated_input_returns_zero_filled_value :
    decode_from [0xd1] = (.ok (.integer 0), []) :=
  rfl

/-- C7: the reserved-tag claim holds only for `0xC1`, which returns the
sole error value of the crate; the other reserved tags `0xC7`–`0xC9` and
`0xD4`–`0xD8` hit `unimplemented!()` arms, which panic instead of
returning an error. -/
theorem reserved_tags_only_c1_errors :
    decode_from [0xc1] = (.fail .error, []) ∧
    decode_from [0xc7] = (.fail .unimpl, []) ∧
    decode_from [0xc8] = (.fail .unimpl, []) ∧
    decode_from [0xc9] = (.fail .unimpl, []) ∧
    decode_from [0xd4] = (.fail .unimpl, []) ∧
    decode_from [0xd5] = (.fail .unimpl, []) ∧
    decode_from [0xd6] = (.fail .unimpl, []) ∧
    decode_from [0xd7] = (.fail .unimpl, []) ∧
    decode_from [0xd8] = (.fail .unimpl, []) :=
  ⟨rfl, rfl, rfl, rfl, rfl, rfl, rfl, rfl, rfl⟩

theorem encodeList_replicate_null (n : Nat) :
    encodeList (List.replicate n .null) = List.replicate n 0xc0 := by
  induction n with
  | zero => rfl
  | succ n ih => simp [List.replicate_succ, encodeList, encode_to, ih]

theorem encodePairs_replicate_null (n : Nat) :
    encodePairs (List.replicate n (Value.null, Value.null)) =
      List.replicate (2 * n) 0xc0 := by
  induction n with
  | zero => rfl
  | succ n ih =>
    simp [List.replicate_succ, encodePairs, encode_to, ih]
    rw [show 2 * (n + 1) = (2 * n + 1) + 1 by omega, List.replicate_succ,
      List.replicate_succ]

theorem encode_to_array_large (a : List Value) (h : 65535 < a.length) :
    encode_to (.array a) = 0xdd :: (beBytes 2 (a.length % 2 ^ 16) ++ encodeList a) := by
  have h1 : ¬ a.length ≤ 15 := by omega
  have h2 : ¬ a.length ≤ 65535 := by omega
  simp [encode_to, h1, h2]

theorem encode_to_map_large (m : List (Value × Value)) (h : 65535 < m.length) :
    encode_to (.map m) = 0xdf :: (beBytes 4 (m.length % 2 ^ 32) ++ encodePairs m) := by
  have h1 : ¬ m.length ≤ 15 := by omega
  have h2 : ¬ m.length ≤ 65535 := by omega
  simp [encode_to, h1, h2]

/-- C5: the 32-bit count tier claim fails on the code for arrays.  An
array of 65536 elements takes the last tier and the code emits the `0xDD`
tag, but then writes `(len as u16).to_be_bytes()` — a 2-byte count field,
which for 65536 even truncates to `0x00 0x00`.  (The map side of the
claim does hold: a 65536-entry map gets `0xDF` followed by the 4-byte
big-endian count `0x00 0x01 0x00 0x00`.) -/
theorem array_32bit_tier_emits_2_byte_count :
    encode_to (.array (List.replicate 65536 .null)) =
      0xdd :: 0x00 :: 0x00 :: List.replicate 65536 0xc0 ∧
    encode_to (.map (List.replicate 65536 (Value.null, Value.null))) =
      0xdf :: 0x00 :: 0x01 :: 0x00 :: 0x00 :: List.replicate 131072 0xc0 := by
  constructor
  · rw [encode_to_array_large _ (by rw [List.length_replicate]; omega),
      encodeList_replicate_null, List.length_replicate]
    norm_num [beBytes]
  · rw [encode_to_map_large _ (by rw [List.length_replicate]; omega),
      encodePairs_replicate_null, List.length_replicate]
    norm_num [beBytes]

/-- C8: the hash/equality consistency claim fails on the code, twice over.
`Float(0.0)` and `Float(-0.0)` are equal (raw `f64` equality) but hash
different data (`to_bits` distinguishes them), and two `Map`s holding the
same entries in different iteration orders are equal but feed the hasher
their entries in iteration order with no commutative combiner, so they
hash different streams. -/
theorem equal_values_hash_differently :
    (eqValue (.float 0) (.float (2 ^ 63)) = true ∧
      hashTokens (.float 0) ≠ hashTokens (.float (2 ^ 63))) ∧
    (eqValue (.map [(.integer 0, .null), (.integer 1, .null)])
        (.map [(.integer 1, .null), (.integer 0, .null)]) = true ∧
      hashTokens (.map [(.integer 0, .null), (.integer 1, .null)]) ≠
        hashTokens (.map [(.integer 1, .null), (.integer 0, .null)])) := by
  refine ⟨⟨?_, ?_⟩, ⟨?_, ?_⟩⟩
  · simp [eqValue, f64Eq, isNaNBits, isZeroBits]
  · decide
  · simp [eqValue, eqEntries, hmGet, hashTokens]
  · decide

/-- C9, counterexample: the frozen claim fails on the code for duplicate
keys that are equal but hash differently, which the broken `Hash`
implementation makes possible.  The 2-entry fixed map stream whose keys
are `Float(0.0)` and `Float(-0.0)` — equal under the `Float` arm of
`PartialEq` — decodes to a 2-entry map, not to the claimed 1-entry map
holding the second value: `HashMap::insert` looks the new key up by hash
and never sees the equal entry stored under the other hash. -/
theorem duplicate_equal_keys_can_survive :
    eqValue (.float 0) (.float 0x8000000000000000) = true ∧
    decode_from [0x82, 0xcb, 0, 0, 0, 0, 0, 0, 0, 0, 0xc0,
        0xcb, 0x80, 0, 0, 0, 0, 0, 0, 0, 0xc3] =
      (.ok (.map [(.float 0, .null),
        (.float 0x8000000000000000, .boolean true)]), []) := by
  constructor
  · simp [eqValue, f64Eq, isNaNBits, isZeroBits]
  · rfl

/-- C9, as amended: decoding a map stream with duplicate keys inserts
entries in stream order; a later key that is equal to an earlier one
*and hashes identically* (as a byte-identical repeated key does)
overwrites the value of the earlier entry, keeping the stored key as
`HashMap::insert` does — so the 2-entry fixed map `82 01 0A 01 0B`
(key `1` bound to `10` and then to `11`) decodes to the 1-entry map
`{1: 11}`; a later equal key with a different hash does not merge and
both entries are kept. -/
theorem duplicate_map_keys_overwrite :
    (∀ k1 k2 v1 v2 : Value, hashTokens k2 = hashTokens k1 → eqValue k2 k1 = true →
      mapFromPairs [(k1, v1), (k2, v2)] = [(k1, v2)]) ∧
    (∀ k1 k2 v1 v2 : Value, hashTokens k2 ≠ hashTokens k1 →
      mapFromPairs [(k1, v1), (k2, v2)] = [(k1, v1), (k2, v2)]) ∧
    decode_from [0x82, 0x01, 0x0a, 0x01, 0x0b] =
      (.ok (.map [(.integer 1, .integer 11)]), []) := by
  have hgen : ∀ k1 k2 v1 v2 : Value, hashTokens k2 = hashTokens k1 → eqValue k2 k1 = true →
      mapFromPairs [(k1, v1), (k2, v2)] = [(k1, v2)] := by
    intro k1 k2 v1 v2 hh he
    simp [mapFromPairs, hmInsert, hh, he]
  refine ⟨hgen, ?_, ?_⟩
  · intro k1 k2 v1 v2 hh
    have hb : (hashTokens k2 == hashTokens k1) = false := by
      simpa using hh
    simp [mapFromPairs, hmInsert, hb]
  · have h1 : decode_from [0x82, 0x01, 0x0a, 0x01, 0x0b] =
        (.ok (.map (mapFromPairs [(.integer 1, .integer 10), (.integer 1, .integer 11)])), []) := rfl
    rw [h1, hgen _ _ _ _ rfl (by simp [eqValue])]

/-- Witness for C9: the overwrite property applied at the byte-identical
key `Integer(1)` with values `Null` then `Boolean(true)`, and the
keep-both property applied at the equal but differently hashing keys
`Float(0.0)` and `Float(-0.0)`. -/
theorem duplicate_map_keys_overwrite_witness :
    mapFromPairs [(Value.integer 1, Value.null), (Value.integer 1, Value.boolean true)] =
      [(Value.integer 1, Value.boolean true)] ∧
    mapFromPairs [(Value.float 0, Value.null),
        (Value.float 0x8000000000000000, Value.boolean true)] =
      [(Value.float 0, Value.null), (Value.float 0x8000000000000000, Value.boolean true)] :=
  ⟨duplicate_map_keys_overwrite.1 (Value.integer 1) (Value.integer 1) Value.null
    (Value.boolean true) rfl (by simp [eqValue]),
   duplicate_map_keys_overwrite.2.1 (Value.float 0) (Value.float 0x8000000000000000)
    Value.null (Value.boolean true) (by decide)⟩

theorem sizeOf_value_pos (v : Value) : 0 < sizeOf v := by
  cases v <;> simp

theorem nanFreeList_mem {l : List Value} (h : nanFreeList l = true) {v : Value}
    (hv : v ∈ l) : nanFree v = true := by
  induction l with
  | nil => cases hv
  | cons x xs ih =>
    simp [nanFreeList, Bool.and_eq_true] at h
    rcases List.mem_cons.mp hv with rfl | hv
    · exact h.1
    · exact ih h.2 hv

theorem nanFreePairs_mem {m : List (Value × Value)} (h : nanFreePairs m = true)
    {p : Value × Value} (hp : p ∈ m) : nanFree p.1 = true ∧ nanFree p.2 = true := by
  induction m with
  | nil => cases hp
  | cons x xs ih =>
    obtain ⟨k, v⟩ := x
    simp [nanFreePairs, Bool.and_eq_true] at h
    rcases List.mem_cons.mp hp with rfl | hp
    · exact ⟨h.1.1, h.1.2⟩
    · exact ih h.2 hp

theorem wfList_mem {l : List Value} (h : wfList l = true) {v : Value}
    (hv : v ∈ l) : mapKeysWF v = true := by
  induction l with
  | nil => cases hv
  | cons x xs ih =>
    simp [wfList, Bool.and_eq_true] at h
    rcases List.mem_cons.mp hv with rfl | hv
    · exact h.1
    · exact ih h.2 hv

theorem wfPairs_mem {m : List (Value × Value)} (h : wfPairs m = true)
    {p : Value × Value} (hp : p ∈ m) : mapKeysWF p.1 = true ∧ mapKeysWF p.2 = true := by
  induction m with
  | nil => cases hp
  | cons x xs ih =>
    obtain ⟨k, v⟩ := x
    simp [wfPairs, Bool.and_eq_true] at h
    rcases List.mem_cons.mp hp with rfl | hp
    · exact ⟨h.1.1, h.1.2⟩
    · exact ih h.2 hp

theorem eqList_refl (l : List Value) (h : ∀ v ∈ l, eqValue v v = true) :
    eqList l l = true := by
  induction l with
  | nil => simp [eqList]
  | cons x xs ih =>
    simp [eqList, h x (List.mem_cons_self x xs)]
    exact ih fun v hv => h v (List.mem_cons_of_mem x hv)

theorem hmGet_mem (m : List (Value × Value)) (k v : Value)
    (hmem : (k, v) ∈ m) (hd : keysDistinct m = true) (hk : eqValue k k = true) :
    hmGet m k = some v := by
  induction m with
  | nil => cases hmem
  | cons x ps ih =>
    obtain ⟨k2, v2⟩ := x
    simp [keysDistinct, Bool.and_eq_true, List.all_eq_true] at hd
    rcases List.mem_cons.mp hmem with heq | hmem2
    · rw [Prod.mk.injEq] at heq
      obtain ⟨rfl, rfl⟩ := heq
      simp [hmGet, hk]
    · have hclash := hd.1 k v hmem2
      have hcond : (hashTokens k == hashTokens k2 && eqValue k k2) = false := by
        by_contra hc
        have hb : (hashTokens k == hashTokens k2 && eqValue k k2) = true := by
          revert hc
          cases hashTokens k == hashTokens k2 && eqValue k k2 <;> simp
        simp only [Bool.and_eq_true, beq_iff_eq] at hb
        simp [keyClash, hb.1, hb.2] at hclash
      simp [hmGet, hcond]
      exact ih hmem2 hd.2

theorem eqEntries_sub (ps m2 : List (Value × Value))
    (hsub : ∀ p ∈ ps, p ∈ m2) (hd : keysDistinct m2 = true)
    (hrefl : ∀ p ∈ ps, eqValue p.1 p.1 = true ∧ eqValue p.2 p.2 = true) :
    eqEntries ps m2 = true := by
  induction ps with
  | nil => simp [eqEntries]
  | cons x ps ih =>
    obtain ⟨k, v⟩ := x
    have hmem : (k, v) ∈ m2 := hsub (k, v) (List.mem_cons_self _ _)
    have hr := hrefl (k, v) (List.mem_cons_self _ _)
    rw [eqEntries, hmGet_mem m2 k v hmem hd hr.1]
    simp only [hr.2, Bool.true_and]
    exact ih (fun p hp => hsub p (List.mem_cons_of_mem _ hp))
      (fun p hp => hrefl p (List.mem_cons_of_mem _ hp))

theorem eqValue_refl_aux : ∀ (n : Nat) (v : Value), sizeOf v ≤ n →
    nanFree v = true → mapKeysWF v = true → eqValue v v = true := by
  intro n
  induction n with
  | zero =>
    intro v hv _ _
    have := sizeOf_value_pos v
    omega
  | succ n ih =>
    intro v hv h1 h2
    cases v with
    | null => simp [eqValue]
    | boolean b => simp [eqValue]
    | integer i => simp [eqValue]
    | float bits =>
      have hb : isNaNBits bits = false := by simpa [nanFree] using h1
      simp [eqValue, f64Eq, hb]
    | str s => simp [eqValue]
    | bytes b => simp [eqValue]
    | array a =>
      simp only [eqValue]
      apply eqList_refl
      intro v hv2
      have hlt : sizeOf v < sizeOf a := List.sizeOf_lt_of_mem hv2
      have hv3 : 1 + sizeOf a ≤ n + 1 := by simpa using hv
      exact ih v (by omega) (nanFreeList_mem (by simpa [nanFree] using h1) hv2)
        (wfList_mem (by simpa [mapKeysWF] using h2) hv2)
    | map m =>
      simp only [eqValue, beq_self_eq_true, if_true]
      obtain ⟨hd, hwf⟩ : keysDistinct m = true ∧ wfPairs m = true := by
        simpa [mapKeysWF, Bool.and_eq_true] using h2
      apply eqEntries_sub m m (fun p hp => hp) hd
      intro p hp
      have hlt : sizeOf p < sizeOf m := List.sizeOf_lt_of_mem hp
      have hv3 : 1 + sizeOf m ≤ n + 1 := by simpa using hv
      obtain ⟨k, v⟩ := p
      have hsk : sizeOf (k, v) = 1 + sizeOf k + sizeOf v := by simp
      rw [hsk] at hlt
      have hnf := nanFreePairs_mem (by simpa [nanFree] using h1) hp
      have hwfp := wfPairs_mem hwf hp
      exact ⟨ih k (by omega) hnf.1 hwfp.1, ih v (by omega) hnf.2 hwfp.2⟩

/-- C10: equality on `Value` is not reflexive.  A `Float` holding a NaN
payload compares unequal to itself (the `Float` arm uses raw `f64`
equality), so an entry keyed by such a value is invisible to
`HashMap::get`; for values containing no NaN float (and whose maps
satisfy the `HashMap` key invariant `mapKeysWF`), equality is
reflexive. -/
theorem nan_float_eq_irreflexive :
    (∀ bits, isNaNBits bits = true → eqValue (.float bits) (.float bits) = false) ∧
    (∀ (bits : Nat) (v : Value) (m : List (Value × Value)), isNaNBits bits = true →
      hmGet ((Value.float bits, v) :: m) (.float bits) = hmGet m (.float bits)) ∧
    (∀ v : Value, nanFree v = true → mapKeysWF v = true → eqValue v v = true) := by
  refine ⟨?_, ?_, ?_⟩
  · intro bits h
    simp [eqValue, f64Eq, h]
  · intro bits v m h
    simp [hmGet, eqValue, f64Eq, h]
  · intro v h1 h2
    exact eqValue_refl_aux (sizeOf v) v le_rfl h1 h2

/-- Witness for C10: the quiet-NaN pattern `0x7FF8000000000000` is not
equal to itself and cannot be found as a map key, while the NaN-free
singleton map `{1: 0.0}` is equal to itself. -/
theorem nan_float_eq_irreflexive_witness :
    eqValue (.float 0x7ff8000000000000) (.float 0x7ff8000000000000) = false ∧
    hmGet [(Value.float 0x7ff8000000000000, Value.null)] (.float 0x7ff8000000000000) = none ∧
    eqValue (.map [(.integer 1, .float 0)]) (.map [(.integer 1, .float 0)]) = true := by
  refine ⟨nan_float_eq_irreflexive.1 0x7ff8000000000000 (by decide), ?_, ?_⟩
  · rw [nan_float_eq_irreflexive.2.1 0x7ff8000000000000 Value.null [] (by decide)]
    simp [hmGet]
  · exact nan_float_eq_irreflexive.2.2 (.map [(.integer 1, .float 0)]) (by decide) (by decide)
